import Mathlib

/-!
Shallow embedding of the uapi-version crate (src/lib.rs).

The comparator walks two character streams with one-character lookahead.
We model the peekable iterator state inside one outer-loop iteration as a
pair of the current character (the value last returned by next, possibly
absent) and the list of characters not yet returned.  The outer loop state
between iterations is just the pair of remaining lists, because the Rust
code overwrites the held characters with fresh next calls at the top of
every iteration.
-/

/-- Rust is_valid_version_char: ASCII alphanumeric or one of the four
marker characters. -/
def is_valid_version_char (c : Char) : Bool :=
  c.isAlphanum || c == '~' || c == '-' || c == '^' || c == '.'

/-- Rust bool Ord: false sorts before true. -/
def boolCmp : Bool → Bool → Ordering
  | false, false => Ordering.eq
  | false, true  => Ordering.lt
  | true,  false => Ordering.gt
  | true,  true  => Ordering.eq

/-- Rust compare_special_char (src/lib.rs lines 239-243): the side whose
current character is the marker sorts before the side whose current
character is anything else or absent. -/
def compare_special_char (ch : Char) (left right : Option Char) : Ordering :=
  boolCmp (!left.any fun c => c == ch) (!right.any fun c => c == ch)

/-- Rust char Ord: by scalar value. -/
def charCmp (a b : Char) : Ordering :=
  compare a.toNat b.toNat

/-- Rust Option Ord used by left.cmp of step 3: None sorts before Some. -/
def optionCharCmp : Option Char → Option Char → Ordering
  | none, none => Ordering.eq
  | none, some _ => Ordering.lt
  | some _, none => Ordering.gt
  | some a, some b => charCmp a b

/-- Rust String Ord on the captured runs: lexicographic over characters
(the runs consist of ASCII characters only, so byte order and character
order agree). -/
def listCmp : List Char → List Char → Ordering
  | [], [] => Ordering.eq
  | [], _ :: _ => Ordering.lt
  | _ :: _, [] => Ordering.gt
  | a :: ta, b :: tb =>
    match charCmp a b with
    | Ordering.eq => listCmp ta tb
    | o => o

/-- One call of Iterator next: the head is returned and removed. -/
def nextChar : List Char → Option Char × List Char
  | [] => (none, [])
  | c :: rest => (some c, rest)

/-- A Rust loop of the shape: while the current character satisfies p,
replace it by the next one.  Used for the invalid-character skip of step 1
and the leading-zero skip of step 7. -/
def skipWhile (p : Char → Bool) : Option Char → List Char → Option Char × List Char
  | some c, rest =>
    if p c then
      match rest with
      | [] => (none, [])
      | c' :: rest' => skipWhile p (some c') rest'
    else (some c, rest)
  | none, rest => (none, rest)

/-- The run-capturing loops of steps 7 and 8: while the current character
satisfies p, push it onto the run, stop (keeping the current character in
hand and the peeked character unconsumed) as soon as the lookahead fails p,
otherwise advance.  Returns the run, the final held character and the
remaining characters after the run. -/
def captureRun (p : Char → Bool) : Option Char → List Char → List Char × Option Char × List Char
  | some c, rest =>
    if p c then
      match rest with
      | c' :: rest' =>
        if p c' then
          let r := captureRun p (some c') rest'
          (c :: r.1, r.2.1, r.2.2)
        else ([c], some c, c' :: rest')
      | [] => ([c], some c, [])
    else ([], some c, rest)
  | none, rest => ([], none, rest)

/-- One marker-character step of strverscmp (steps 2, 4, 5 and 6): when
either current character is the marker and compare_special_char does not
answer Equal, the loop returns that answer; otherwise it falls through. -/
def specialStep (ch : Char) (left right : Option Char) : Option Ordering :=
  if ((left.any fun c => c == ch) || (right.any fun c => c == ch)) &&
      compare_special_char ch left right != Ordering.eq
  then some (compare_special_char ch left right)
  else none

/-- Step 3 of strverscmp: when either side is exhausted the loop returns
the Option order of the two current characters. -/
def emptyStep (left right : Option Char) : Option Ordering :=
  if left.isNone || right.isNone then some (optionCharCmp left right) else none

/-- Shared tail of steps 7 and 8: return the run comparison when it is not
Equal, otherwise continue the outer loop past the runs. -/
def runTail (recur : List Char → List Char → Ordering)
    (lRun rRun lRest rRest : List Char) : Ordering :=
  if listCmp lRun rRun != Ordering.eq then listCmp lRun rRun
  else recur lRest rRest

/-- The body of one iteration of the outer loop of strverscmp
(src/lib.rs lines 118-236), after the invalid-character skip of step 1 has
produced the two held characters and the two remaining lists.  The recur
argument is the continuation for the next outer iteration; the Rust code
reaches it by falling through to the next pass of the loop, discarding the
held characters. -/
def loopBody (recur : List Char → List Char → Ordering)
    (left right : Option Char) (lRest rRest : List Char) : Ordering :=
  -- Step 2: Handle the pre-release marker
  match specialStep '~' left right with
  | some o => o
  | none =>
  -- Step 3: Handle empty
  match emptyStep left right with
  | some o => o
  | none =>
  -- Step 4: Handle the version-release separator
  match specialStep '-' left right with
  | some o => o
  | none =>
  -- Step 5: Handle the patch-level separator
  match specialStep '^' left right with
  | some o => o
  | none =>
  -- Step 6: Handle the point-release separator
  match specialStep '.' left right with
  | some o => o
  | none =>
  -- Step 7: Handle the numerical part
  if left.any (fun c => c.isDigit) || right.any (fun c => c.isDigit) then
    let zl := skipWhile (fun c => c == '0') left lRest
    let zr := skipWhile (fun c => c == '0') right rRest
    let dl := captureRun (fun c => c.isDigit) zl.1 zl.2
    let dr := captureRun (fun c => c.isDigit) zr.1 zr.2
    if dl.1.length != dr.1.length then compare dl.1.length dr.1.length
    else runTail recur dl.1 dr.1 dl.2.2 dr.2.2
  -- Step 8: Handle the alphabetical part
  else
    let al := captureRun (fun c => c.isAlpha) left lRest
    let ar := captureRun (fun c => c.isAlpha) right rRest
    runTail recur al.1 ar.1 al.2.2 ar.2.2

/-- The outer loop of strverscmp.  Each pass takes one character from each
side, skips invalid characters (step 1) and runs the decision steps.  The
fuel argument only forces termination; every continuing pass consumes at
least one character from each side, so any fuel above half the total input
length is enough and the top-level wrapper always supplies enough. -/
def strverscmpLoop : Nat → List Char → List Char → Ordering
  | 0, _, _ => Ordering.eq
  | fuel + 1, l, r =>
    -- Step 1: Skip invalid chars
    let sl := skipWhile (fun c => !is_valid_version_char c) (nextChar l).1 (nextChar l).2
    let sr := skipWhile (fun c => !is_valid_version_char c) (nextChar r).1 (nextChar r).2
    loopBody (strverscmpLoop fuel) sl.1 sr.1 sl.2 sr.2

/-- Rust strverscmp (src/lib.rs lines 114-237). -/
def strverscmp (a b : String) : Ordering :=
  strverscmpLoop (a.length + b.length + 1) a.data b.data

/-- The Version wrapper (src/lib.rs line 68): a newtype around a string. -/
structure Version where
  string : String

/-- The derived PartialEq of Version (src/lib.rs line 67): structural
equality of the wrapped strings. -/
def versionBEq (a b : Version) : Bool :=
  a.string == b.string

/-- Rust impl From of a borrowed string slice (src/lib.rs lines 77-81):
the characters are copied verbatim. -/
def Version.fromStr (s : String) : Version :=
  ⟨s⟩

/-- Modelled from the spec: the construction of a Version from an owned
string.  The integration test constructing calls it, but the impl block is
not in src/lib.rs; per the spec any string-like input is accepted and
stored verbatim, with no validation or transformation. -/
def Version.fromOwned (s : String) : Version :=
  ⟨s⟩

/-- Modelled from the spec: the construction of a Version from a reference
to an owned string.  The integration test constructing calls it, but the
impl block is not in src/lib.rs; per the spec any string-like input is
accepted and stored verbatim, with no validation or transformation. -/
def Version.fromOwnedRef (s : String) : Version :=
  ⟨s⟩

/-- Rust Version as_str (src/lib.rs lines 72-74). -/
def Version.as_str (v : Version) : String :=
  v.string

/-- Rust ToString for Version (src/lib.rs lines 83-87): renders as_str. -/
def Version.to_string (v : Version) : String :=
  v.as_str

/-- Rust Ord for Version (src/lib.rs lines 95-99): delegates to
strverscmp on the wrapped strings. -/
def Version.cmp (a b : Version) : Ordering :=
  strverscmp a.string b.string

/-- From the claim wording of C2: remove every invalid character. -/
def stripInvalid (s : String) : String :=
  ⟨s.data.filter is_valid_version_char⟩

/-- Decimal value accumulator for a digit string, most significant first. -/
def valAux (a : Nat) (l : List Char) : Nat :=
  l.foldl (fun acc c => 10 * acc + (c.toNat - 48)) a

/-- From the claim wording of C6: the value of a digit string as an
unbounded-precision natural number. -/
def digitsToNat (l : List Char) : Nat :=
  valAux 0 l

/-! Concrete evaluations of the embedding, checked by the kernel.  The
first block reproduces comparisons from the crate's own test table; the
later ones record the behaviour of the zero-run edge case that several
claims turn on.  Note that the pair 1.0.0 against 0001 answers Greater,
while the ordered list in tests/it.rs places 1.0.0 before 0001. -/

example : strverscmp "225.1" "2" = Ordering.gt := by decide
example : strverscmp "123.45-67.88" "123.45-67.89" = Ordering.lt := by decide
example : strverscmp "0a" "0b" = Ordering.eq := by decide
example : strverscmp "a" "0b" = Ordering.eq := by decide
example : strverscmp "0b" "b" = Ordering.eq := by decide
example : strverscmp "a" "b" = Ordering.lt := by decide
example : strverscmp "12_3" "123" = Ordering.lt := by decide
example : strverscmp "123." "123" = Ordering.gt := by decide
example : strverscmp "0001" "002" = Ordering.lt := by decide
example : strverscmp "1.0.0" "0001" = Ordering.gt := by decide
example : strverscmp "123~rc1" "123" = Ordering.lt := by decide
example : strverscmp "0" "0___" = Ordering.eq := by decide
example : strverscmp "123_aa2-67.89" "123aa+2-67.89" = Ordering.eq := by decide

/-! Helper lemmas: the comparator mirrors its answer when the two inputs
are exchanged.  Every decision step of the loop body is individually
mirror-symmetric, and the outer loop preserves this by induction on its
fuel. -/

theorem boolCmp_swap (a b : Bool) : boolCmp b a = (boolCmp a b).swap := by
  cases a <;> cases b <;> rfl

theorem compare_special_char_swap (ch : Char) (l r : Option Char) :
    compare_special_char ch r l = (compare_special_char ch l r).swap := by
  unfold compare_special_char
  exact boolCmp_swap _ _

theorem charCmp_swap (a b : Char) : charCmp b a = (charCmp a b).swap := by
  unfold charCmp
  exact (Nat.compare_swap _ _).symm

theorem optionCharCmp_swap (l r : Option Char) :
    optionCharCmp r l = (optionCharCmp l r).swap := by
  cases l <;> cases r
  · rfl
  · rfl
  · rfl
  · exact charCmp_swap _ _

theorem listCmp_swap (l r : List Char) : listCmp r l = (listCmp l r).swap := by
  induction l generalizing r with
  | nil => cases r <;> rfl
  | cons a ta ih =>
    cases r with
    | nil => rfl
    | cons b tb =>
      simp only [listCmp]
      rw [charCmp_swap a b]
      cases charCmp a b with
      | eq => exact ih tb
      | lt => rfl
      | gt => rfl

theorem bne_eq_swap (o : Ordering) :
    (o.swap != Ordering.eq) = (o != Ordering.eq) := by
  cases o <;> rfl

theorem specialStep_swap (ch : Char) (l r : Option Char) :
    specialStep ch r l = Option.map Ordering.swap (specialStep ch l r) := by
  unfold specialStep
  rw [compare_special_char_swap ch l r, Bool.or_comm (r.any fun c => c == ch), bne_eq_swap]
  by_cases h : (((l.any fun c => c == ch) || (r.any fun c => c == ch)) &&
      compare_special_char ch l r != Ordering.eq) = true
  · rw [if_pos h, if_pos h, Option.map_some']
  · rw [if_neg h, if_neg h, Option.map_none']

theorem emptyStep_swap (l r : Option Char) :
    emptyStep r l = Option.map Ordering.swap (emptyStep l r) := by
  unfold emptyStep
  rw [Bool.or_comm r.isNone, optionCharCmp_swap l r]
  by_cases h : (l.isNone || r.isNone) = true
  · rw [if_pos h, if_pos h, Option.map_some']
  · rw [if_neg h, if_neg h, Option.map_none']

theorem bne_length_comm (x y : List Char) :
    (y.length != x.length) = (x.length != y.length) := by
  by_cases h : x.length = y.length
  · rw [h]
  · have h1 : (x.length != y.length) = true := bne_iff_ne.2 h
    have h2 : (y.length != x.length) = true := bne_iff_ne.2 fun e => h e.symm
    rw [h1, h2]

theorem runTail_swap (recur1 recur2 : List Char → List Char → Ordering)
    (h : ∀ x y, recur2 x y = (recur1 y x).swap)
    (x y u v : List Char) :
    runTail recur2 y x v u = (runTail recur1 x y u v).swap := by
  unfold runTail
  rw [listCmp_swap x y, bne_eq_swap]
  by_cases hc : (listCmp x y != Ordering.eq) = true
  · rw [if_pos hc, if_pos hc]
  · rw [if_neg hc, if_neg hc]
    exact h v u

theorem loopBody_swap (recur1 recur2 : List Char → List Char → Ordering)
    (h : ∀ x y, recur2 x y = (recur1 y x).swap)
    (left right : Option Char) (lRest rRest : List Char) :
    loopBody recur2 right left rRest lRest =
      (loopBody recur1 left right lRest rRest).swap := by
  unfold loopBody
  rw [specialStep_swap '~' left right]
  cases specialStep '~' left right with
  | some o => rfl
  | none =>
  rw [Option.map_none']
  rw [emptyStep_swap left right]
  cases emptyStep left right with
  | some o => rfl
  | none =>
  rw [Option.map_none']
  rw [specialStep_swap '-' left right]
  cases specialStep '-' left right with
  | some o => rfl
  | none =>
  rw [Option.map_none']
  rw [specialStep_swap '^' left right]
  cases specialStep '^' left right with
  | some o => rfl
  | none =>
  rw [Option.map_none']
  rw [specialStep_swap '.' left right]
  cases specialStep '.' left right with
  | some o => rfl
  | none =>
  rw [Option.map_none']
  dsimp only
  rw [Bool.or_comm (Option.any (fun c => c.isDigit) right)]
  by_cases hd : (Option.any (fun c => c.isDigit) left ||
      Option.any (fun c => c.isDigit) right) = true
  · rw [if_pos hd, if_pos hd]
    rw [bne_length_comm (captureRun (fun c => c.isDigit)
        (skipWhile (fun c => c == '0') left lRest).1
        (skipWhile (fun c => c == '0') left lRest).2).1
        (captureRun (fun c => c.isDigit)
        (skipWhile (fun c => c == '0') right rRest).1
        (skipWhile (fun c => c == '0') right rRest).2).1]
    by_cases hl : ((captureRun (fun c => c.isDigit)
        (skipWhile (fun c => c == '0') left lRest).1
        (skipWhile (fun c => c == '0') left lRest).2).1.length !=
        (captureRun (fun c => c.isDigit)
        (skipWhile (fun c => c == '0') right rRest).1
        (skipWhile (fun c => c == '0') right rRest).2).1.length) = true
    · rw [if_pos hl, if_pos hl]
      exact (Nat.compare_swap _ _).symm
    · rw [if_neg hl, if_neg hl]
      exact runTail_swap recur1 recur2 h _ _ _ _
  · rw [if_neg hd, if_neg hd]
    exact runTail_swap recur1 recur2 h _ _ _ _

theorem strverscmpLoop_swap (fuel : Nat) (l r : List Char) :
    strverscmpLoop fuel r l = (strverscmpLoop fuel l r).swap := by
  induction fuel generalizing l r with
  | zero => rfl
  | succ n ih =>
    show loopBody (strverscmpLoop n) _ _ _ _ = _
    exact loopBody_swap (strverscmpLoop n) (strverscmpLoop n)
      (fun x y => ih y x) _ _ _ _

theorem strverscmp_swap (a b : String) :
    strverscmp b a = (strverscmp a b).swap := by
  unfold strverscmp
  rw [Nat.add_comm b.length a.length]
  exact strverscmpLoop_swap _ _ _

/-! Helper lemmas: one outer-loop pass in terms of dropWhile, head? and
tail of the raw input lists, and evaluation facts for the individual
decision steps. -/

theorem nextChar_eq (s : List Char) : nextChar s = (s.head?, s.tail) := by
  cases s <;> rfl

theorem skipWhile_some (p : Char → Bool) (c : Char) (rest : List Char) :
    skipWhile p (some c) rest =
      if p c then
        match rest with
        | [] => (none, [])
        | c' :: rest' => skipWhile p (some c') rest'
      else (some c, rest) := by
  rw [skipWhile.eq_def]

theorem captureRun_some (p : Char → Bool) (c : Char) (rest : List Char) :
    captureRun p (some c) rest =
      if p c then
        match rest with
        | c' :: rest' =>
          if p c' then
            let r := captureRun p (some c') rest'
            (c :: r.1, r.2.1, r.2.2)
          else ([c], some c, c' :: rest')
        | [] => ([c], some c, [])
      else ([], some c, rest) := by
  rw [captureRun.eq_def]

theorem skipWhile_next (p : Char → Bool) (s : List Char) :
    skipWhile p (nextChar s).1 (nextChar s).2 = nextChar (s.dropWhile p) := by
  induction s with
  | nil => rfl
  | cons c t ih =>
    show skipWhile p (some c) t = nextChar ((c :: t).dropWhile p)
    rw [List.dropWhile_cons, skipWhile_some]
    by_cases h : p c = true
    · rw [if_pos h, if_pos h]
      cases t with
      | nil => rfl
      | cons c' t' => exact ih
    · rw [if_neg h, if_neg h]
      rfl

theorem find?_eq_head_dropWhile (p : Char → Bool) (s : List Char) :
    s.find? p = (s.dropWhile fun c => !p c).head? := by
  induction s with
  | nil => rfl
  | cons c t ih =>
    rw [List.dropWhile_cons]
    by_cases h : p c = true
    · rw [List.find?_cons_of_pos _ h]
      simp [h]
    · rw [List.find?_cons_of_neg _ h]
      simp only [h, Bool.not_false, if_pos]
      exact ih

theorem strverscmpLoop_succ (fuel : Nat) (l r : List Char) :
    strverscmpLoop (fuel + 1) l r =
      loopBody (strverscmpLoop fuel)
        ((l.dropWhile fun c => !is_valid_version_char c).head?)
        ((r.dropWhile fun c => !is_valid_version_char c).head?)
        ((l.dropWhile fun c => !is_valid_version_char c).tail)
        ((r.dropWhile fun c => !is_valid_version_char c).tail) := by
  show loopBody _
      (skipWhile (fun c => !is_valid_version_char c) (nextChar l).1 (nextChar l).2).1
      (skipWhile (fun c => !is_valid_version_char c) (nextChar r).1 (nextChar r).2).1
      (skipWhile (fun c => !is_valid_version_char c) (nextChar l).1 (nextChar l).2).2
      (skipWhile (fun c => !is_valid_version_char c) (nextChar r).1 (nextChar r).2).2 = _
  rw [skipWhile_next, skipWhile_next, nextChar_eq, nextChar_eq]

theorem any_eq_false_of_ne (x : Option Char) (ch : Char) (h : x ≠ some ch) :
    (x.any fun c => c == ch) = false := by
  cases x with
  | none => rfl
  | some c =>
    have hc : c ≠ ch := fun e => h (by rw [e])
    simpa using hc

theorem loopBody_tilde_left (recur : List Char → List Char → Ordering)
    (left right : Option Char) (lRest rRest : List Char)
    (hl : left = some '~') (hr : right ≠ some '~') :
    loopBody recur left right lRest rRest = Ordering.lt := by
  subst hl
  have h1 : (Option.any (fun c => c == '~') (some '~')) = true := by rfl
  have h2 := any_eq_false_of_ne right '~' hr
  unfold loopBody specialStep compare_special_char
  rw [h1, h2]
  rfl

theorem loopBody_tilde_right (recur : List Char → List Char → Ordering)
    (left right : Option Char) (lRest rRest : List Char)
    (hr : right = some '~') (hl : left ≠ some '~') :
    loopBody recur left right lRest rRest = Ordering.gt := by
  subst hr
  have h1 : (Option.any (fun c => c == '~') (some '~')) = true := by rfl
  have h2 := any_eq_false_of_ne left '~' hl
  unfold loopBody specialStep compare_special_char
  rw [h1, h2]
  rfl

theorem loopBody_exhausted_right (recur : List Char → List Char → Ordering)
    (left : Option Char) (c : Char) (lRest rRest : List Char)
    (hl : left = some c) (hc : c ≠ '~') :
    loopBody recur left none lRest rRest = Ordering.gt := by
  subst hl
  have h2 : (some c : Option Char) ≠ some '~' := fun e => hc (by injection e)
  have h1 := any_eq_false_of_ne (some c) '~' h2
  unfold loopBody specialStep compare_special_char
  rw [h1]
  rfl

theorem loopBody_exhausted_left (recur : List Char → List Char → Ordering)
    (right : Option Char) (c : Char) (lRest rRest : List Char)
    (hr : right = some c) (hc : c ≠ '~') :
    loopBody recur none right lRest rRest = Ordering.lt := by
  subst hr
  have h2 : (some c : Option Char) ≠ some '~' := fun e => hc (by injection e)
  have h1 := any_eq_false_of_ne (some c) '~' h2
  unfold loopBody specialStep compare_special_char
  rw [h1]
  rfl

theorem loopBody_both_empty (recur : List Char → List Char → Ordering)
    (lRest rRest : List Char) :
    loopBody recur none none lRest rRest = Ordering.eq := by
  rfl

theorem strverscmpLoop_nil_nil (n : Nat) :
    strverscmpLoop (n + 1) [] [] = Ordering.eq := by
  rfl

/-! Helper lemmas for the all-digit case of step 7: bounds on the scalar
values of digit characters, capture of a fully matching stream, and the
reduction of one loop pass on two non-empty all-digit inputs. -/

theorem toNat_bounds_of_isDigit {c : Char} (h : c.isDigit = true) :
    48 ≤ c.toNat ∧ c.toNat ≤ 57 := by
  unfold Char.isDigit at h
  rw [Bool.and_eq_true] at h
  obtain ⟨h1, h2⟩ := h
  have g1 : c.val ≥ 48 := of_decide_eq_true h1
  have g2 : c.val ≤ 57 := of_decide_eq_true h2
  constructor
  · exact UInt32.le_toNat_of_le (by decide) g1
  · exact UInt32.toNat_le_of_le (by decide) g2

theorem char_toNat_inj {c d : Char} (h : c.toNat = d.toNat) : c = d := by
  have h2 := congrArg Char.ofNat h
  rwa [Char.ofNat_toNat, Char.ofNat_toNat] at h2

theorem beq_false_of_isDigit {c x : Char} (hc : c.isDigit = true)
    (hx : x.isDigit = false) : (c == x) = false := by
  refine beq_eq_false_iff_ne.2 fun e => ?_
  rw [e, hx] at hc
  exact Bool.false_ne_true hc

theorem valid_of_isDigit {c : Char} (h : c.isDigit = true) :
    is_valid_version_char c = true := by
  unfold is_valid_version_char Char.isAlphanum
  rw [h]
  simp

theorem specialStep_none (ch : Char) (left right : Option Char)
    (h1 : (left.any fun c => c == ch) = false)
    (h2 : (right.any fun c => c == ch) = false) :
    specialStep ch left right = none := by
  unfold specialStep
  rw [h1, h2]
  rfl

theorem captureRun_all (p : Char → Bool) (s : List Char)
    (h : ∀ c ∈ s, p c = true) :
    ∃ cur, captureRun p (nextChar s).1 (nextChar s).2 = (s, cur, []) := by
  induction s with
  | nil => exact ⟨none, rfl⟩
  | cons c t ih =>
    have hc : p c = true := h c (List.mem_cons_self c t)
    have ht : ∀ x ∈ t, p x = true := fun x hx => h x (List.mem_cons_of_mem c hx)
    show ∃ cur, captureRun p (some c) t = _
    cases t with
    | nil => exact ⟨some c, by rw [captureRun_some, if_pos hc]⟩
    | cons c' t' =>
      have hc' : p c' = true := ht c' (List.mem_cons_self c' t')
      rw [captureRun_some, if_pos hc]
      dsimp only
      rw [if_pos hc']
      obtain ⟨cur, hcur⟩ := ih ht
      have hcur' : captureRun p (some c') t' = (c' :: t', cur, []) := hcur
      refine ⟨cur, ?_⟩
      simp only [hcur']

theorem strverscmpLoop_digits (fuel : Nat) (l r : List Char)
    (hl : l ≠ []) (hr : r ≠ [])
    (hld : ∀ c ∈ l, c.isDigit = true) (hrd : ∀ c ∈ r, c.isDigit = true) :
    strverscmpLoop (fuel + 2) l r =
      if (l.dropWhile fun c => c == '0').length != (r.dropWhile fun c => c == '0').length
      then compare (l.dropWhile fun c => c == '0').length (r.dropWhile fun c => c == '0').length
      else listCmp (l.dropWhile fun c => c == '0') (r.dropWhile fun c => c == '0') := by
  obtain ⟨c, t, rfl⟩ : ∃ c t, l = c :: t := by
    cases l with
    | nil => exact absurd rfl hl
    | cons c t => exact ⟨c, t, rfl⟩
  obtain ⟨d, u, rfl⟩ : ∃ d u, r = d :: u := by
    cases r with
    | nil => exact absurd rfl hr
    | cons d u => exact ⟨d, u, rfl⟩
  have hc : c.isDigit = true := hld c (List.mem_cons_self c t)
  have hd : d.isDigit = true := hrd d (List.mem_cons_self d u)
  have hdl : (c :: t).dropWhile (fun x => !is_valid_version_char x) = c :: t := by
    rw [List.dropWhile_cons]
    rw [show (!is_valid_version_char c) = false by rw [valid_of_isDigit hc]; rfl]
    rfl
  have hdr : (d :: u).dropWhile (fun x => !is_valid_version_char x) = d :: u := by
    rw [List.dropWhile_cons]
    rw [show (!is_valid_version_char d) = false by rw [valid_of_isDigit hd]; rfl]
    rfl
  rw [show fuel + 2 = (fuel + 1) + 1 from rfl, strverscmpLoop_succ, hdl, hdr]
  rw [List.head?_cons, List.head?_cons, List.tail_cons, List.tail_cons]
  have hany : ∀ (x : Char) (ch : Char), x.isDigit = true → ch.isDigit = false →
      (Option.any (fun y => y == ch) (some x)) = false := by
    intro x ch hx hch
    rw [Option.any_some]
    exact beq_false_of_isDigit hx hch
  unfold loopBody
  rw [specialStep_none '~' _ _ (hany c '~' hc (by decide)) (hany d '~' hd (by decide))]
  rw [show emptyStep (some c) (some d) = none from rfl]
  rw [specialStep_none '-' _ _ (hany c '-' hc (by decide)) (hany d '-' hd (by decide))]
  rw [specialStep_none '^' _ _ (hany c '^' hc (by decide)) (hany d '^' hd (by decide))]
  rw [specialStep_none '.' _ _ (hany c '.' hc (by decide)) (hany d '.' hd (by decide))]
  dsimp only
  rw [show (Option.any (fun x => x.isDigit) (some c)) = true by rw [Option.any_some]; exact hc]
  rw [Bool.true_or, if_pos rfl]
  have hz1 : skipWhile (fun x => x == '0') (some c) t =
      nextChar ((c :: t).dropWhile fun x => x == '0') :=
    skipWhile_next (fun x => x == '0') (c :: t)
  have hz2 : skipWhile (fun x => x == '0') (some d) u =
      nextChar ((d :: u).dropWhile fun x => x == '0') :=
    skipWhile_next (fun x => x == '0') (d :: u)
  rw [hz1, hz2]
  obtain ⟨cur1, hcap1⟩ := captureRun_all (fun x => x.isDigit)
    ((c :: t).dropWhile fun x => x == '0')
    (fun x hx => hld x (List.dropWhile_subset _ hx))
  obtain ⟨cur2, hcap2⟩ := captureRun_all (fun x => x.isDigit)
    ((d :: u).dropWhile fun x => x == '0')
    (fun x hx => hrd x (List.dropWhile_subset _ hx))
  rw [hcap1, hcap2]
  dsimp only
  by_cases hb : (((c :: t).dropWhile fun x => x == '0').length !=
      ((d :: u).dropWhile fun x => x == '0').length) = true
  · rw [if_pos hb, if_pos hb]
  · rw [if_neg hb, if_neg hb]
    unfold runTail
    by_cases hlc : (listCmp ((c :: t).dropWhile fun x => x == '0')
        ((d :: u).dropWhile fun x => x == '0') != Ordering.eq) = true
    · rw [if_pos hlc]
    · rw [if_neg hlc]
      cases hE : listCmp ((c :: t).dropWhile fun x => x == '0')
          ((d :: u).dropWhile fun x => x == '0') with
      | eq => exact strverscmpLoop_nil_nil _
      | lt => rw [hE] at hlc; exact absurd rfl hlc
      | gt => rw [hE] at hlc; exact absurd rfl hlc

/-! Helper lemmas: the decimal value of digit strings.  The run comparison
of step 7 (length first, then character order) agrees with the comparison
of the unbounded decimal values once leading zeros are gone. -/

theorem valAux_nil (a : Nat) : valAux a [] = a := rfl

theorem valAux_cons (a : Nat) (c : Char) (t : List Char) :
    valAux a (c :: t) = valAux (10 * a + (c.toNat - 48)) t := rfl

theorem valAux_eq (l : List Char) : ∀ a : Nat,
    valAux a l = a * 10 ^ l.length + valAux 0 l := by
  induction l with
  | nil =>
    intro a
    rw [valAux_nil, valAux_nil, List.length_nil, pow_zero, mul_one, add_zero]
  | cons c t ih =>
    intro a
    rw [valAux_cons, ih (10 * a + (c.toNat - 48)), valAux_cons,
      ih (10 * 0 + (c.toNat - 48)), List.length_cons]
    ring

theorem valAux_lt (l : List Char) (h : ∀ c ∈ l, c.isDigit = true) :
    valAux 0 l < 10 ^ l.length := by
  induction l with
  | nil =>
    rw [valAux_nil, List.length_nil, pow_zero]
    exact Nat.zero_lt_one
  | cons c t ih =>
    have hc := toNat_bounds_of_isDigit (h c (List.mem_cons_self c t))
    have hlt := ih fun x hx => h x (List.mem_cons_of_mem c hx)
    rw [valAux_cons, valAux_eq, List.length_cons]
    calc (10 * 0 + (c.toNat - 48)) * 10 ^ t.length + valAux 0 t
        < (10 * 0 + (c.toNat - 48)) * 10 ^ t.length + 10 ^ t.length :=
          Nat.add_lt_add_left hlt _
      _ = ((c.toNat - 48) + 1) * 10 ^ t.length := by ring
      _ ≤ 10 * 10 ^ t.length := Nat.mul_le_mul_right _ (by omega)
      _ = 10 ^ (t.length + 1) := by ring

theorem le_valAux (c : Char) (t : List Char) (hc : c.isDigit = true)
    (hc0 : c ≠ '0') : 10 ^ t.length ≤ valAux 0 (c :: t) := by
  have hb := toNat_bounds_of_isDigit hc
  have hne : c.toNat ≠ 48 := fun e => hc0 (char_toNat_inj (by rw [e]; rfl))
  rw [valAux_cons, valAux_eq]
  calc 10 ^ t.length = 1 * 10 ^ t.length := (Nat.one_mul _).symm
    _ ≤ (10 * 0 + (c.toNat - 48)) * 10 ^ t.length :=
        Nat.mul_le_mul_right _ (by omega)
    _ ≤ _ := Nat.le_add_right _ _

theorem listCmp_cons (a b : Char) (ta tb : List Char) :
    listCmp (a :: ta) (b :: tb) =
      match charCmp a b with
      | Ordering.eq => listCmp ta tb
      | o => o := rfl

theorem nat_compare_add_left (k a b : Nat) :
    compare (k + a) (k + b) = compare a b := by
  rw [Nat.compare_def_lt, Nat.compare_def_lt]
  by_cases h1 : a < b
  · rw [if_pos (Nat.add_lt_add_left h1 k), if_pos h1]
  · rw [if_neg (fun hk => h1 (by omega)), if_neg h1]
    by_cases h2 : b < a
    · rw [if_pos (Nat.add_lt_add_left h2 k), if_pos h2]
    · rw [if_neg (fun hk => h2 (by omega)), if_neg h2]

theorem listCmp_digits_eq_compare (x : List Char) : ∀ y : List Char,
    x.length = y.length →
    (∀ c ∈ x, c.isDigit = true) → (∀ c ∈ y, c.isDigit = true) →
    listCmp x y = compare (valAux 0 x) (valAux 0 y) := by
  induction x with
  | nil =>
    intro y hlen _ _
    cases y with
    | nil => rfl
    | cons d u => simp at hlen
  | cons c t ih =>
    intro y hlen hx hy
    cases y with
    | nil => simp at hlen
    | cons d u =>
      have hlen' : t.length = u.length := by
        rw [List.length_cons, List.length_cons] at hlen
        omega
      have hc := hx c (List.mem_cons_self c t)
      have hd := hy d (List.mem_cons_self d u)
      have hxt := fun z hz => hx z (List.mem_cons_of_mem c hz)
      have hyu := fun z hz => hy z (List.mem_cons_of_mem d hz)
      have hbc := toNat_bounds_of_isDigit hc
      have hbd := toNat_bounds_of_isDigit hd
      have hvx : valAux 0 (c :: t) = (c.toNat - 48) * 10 ^ t.length + valAux 0 t := by
        rw [valAux_cons, valAux_eq, Nat.mul_zero, Nat.zero_add]
      have hvy : valAux 0 (d :: u) = (d.toNat - 48) * 10 ^ u.length + valAux 0 u := by
        rw [valAux_cons, valAux_eq, Nat.mul_zero, Nat.zero_add]
      rw [listCmp_cons]
      rcases Nat.lt_trichotomy c.toNat d.toNat with hcd | hcd | hcd
      · have h1 : charCmp c d = Ordering.lt := Nat.compare_eq_lt.2 hcd
        rw [h1]
        have hvlt : valAux 0 (c :: t) < valAux 0 (d :: u) := by
          rw [hvx, hvy, hlen']
          calc (c.toNat - 48) * 10 ^ u.length + valAux 0 t
              < (c.toNat - 48) * 10 ^ u.length + 10 ^ u.length :=
                Nat.add_lt_add_left (hlen' ▸ valAux_lt t hxt) _
            _ = ((c.toNat - 48) + 1) * 10 ^ u.length := by ring
            _ ≤ (d.toNat - 48) * 10 ^ u.length :=
                Nat.mul_le_mul_right _ (by omega)
            _ ≤ (d.toNat - 48) * 10 ^ u.length + valAux 0 u := Nat.le_add_right _ _
        exact (Nat.compare_eq_lt.2 hvlt).symm
      · have hceq : c = d := char_toNat_inj hcd
        subst hceq
        have h1 : charCmp c c = Ordering.eq := Nat.compare_eq_eq.2 rfl
        rw [h1]
        exact (ih u hlen' hxt hyu).trans (by
          rw [hvx, hvy, hlen']
          exact (nat_compare_add_left ((c.toNat - 48) * 10 ^ u.length) _ _).symm)
      · have h1 : charCmp c d = Ordering.gt := Nat.compare_eq_gt.2 hcd
        rw [h1]
        have hvgt : valAux 0 (d :: u) < valAux 0 (c :: t) := by
          rw [hvx, hvy, hlen']
          calc (d.toNat - 48) * 10 ^ u.length + valAux 0 u
              < (d.toNat - 48) * 10 ^ u.length + 10 ^ u.length :=
                Nat.add_lt_add_left (hlen' ▸ valAux_lt u hyu) _
            _ = ((d.toNat - 48) + 1) * 10 ^ u.length := by ring
            _ ≤ (c.toNat - 48) * 10 ^ u.length :=
                Nat.mul_le_mul_right _ (by omega)
            _ ≤ (c.toNat - 48) * 10 ^ u.length + valAux 0 t := Nat.le_add_right _ _
        exact (Nat.compare_eq_gt.2 hvgt).symm

theorem head?_dropWhile (p : Char → Bool) (l : List Char) :
    ∀ c, (l.dropWhile p).head? = some c → p c = false := by
  induction l with
  | nil =>
    intro c h
    exact absurd h (by simp [List.dropWhile])
  | cons a t ih =>
    intro c h
    rw [List.dropWhile_cons] at h
    by_cases hp : p a = true
    · rw [if_pos hp] at h
      exact ih c h
    · rw [if_neg hp] at h
      rw [List.head?_cons] at h
      injection h with h2
      subst h2
      simpa using hp

theorem valAux_dropWhile_zero (l : List Char) :
    valAux 0 (l.dropWhile fun c => c == '0') = valAux 0 l := by
  induction l with
  | nil => rfl
  | cons c t ih =>
    rw [List.dropWhile_cons]
    by_cases h : (c == '0') = true
    · rw [if_pos h]
      have hc0 : c = '0' := eq_of_beq h
      subst hc0
      rw [ih]
      rfl
    · rw [if_neg h]

theorem compare_val_lenlex (x y : List Char)
    (hx : ∀ c ∈ x, c.isDigit = true) (hy : ∀ c ∈ y, c.isDigit = true)
    (hx0 : ∀ c, x.head? = some c → c ≠ '0')
    (hy0 : ∀ c, y.head? = some c → c ≠ '0') :
    (if x.length != y.length then compare x.length y.length else listCmp x y) =
      compare (valAux 0 x) (valAux 0 y) := by
  have key : ∀ (v w : List Char), (∀ c ∈ v, c.isDigit = true) →
      (∀ c ∈ w, c.isDigit = true) → (∀ c, w.head? = some c → c ≠ '0') →
      v.length < w.length → valAux 0 v < valAux 0 w := by
    intro v w hv hw hw0 hlt
    cases w with
    | nil => exact absurd hlt (by simp)
    | cons d u =>
      have hd : d.isDigit = true := hw d (List.mem_cons_self d u)
      have hd0 : d ≠ '0' := hw0 d (by rw [List.head?_cons])
      calc valAux 0 v < 10 ^ v.length := valAux_lt v hv
        _ ≤ 10 ^ u.length := Nat.pow_le_pow_right (by omega)
            (by rw [List.length_cons] at hlt; omega)
        _ ≤ valAux 0 (d :: u) := le_valAux d u hd hd0
  rcases Nat.lt_trichotomy x.length y.length with h | h | h
  · rw [if_pos (bne_iff_ne.2 (Nat.ne_of_lt h))]
    rw [Nat.compare_eq_lt.2 h]
    exact (Nat.compare_eq_lt.2 (key x y hx hy hy0 h)).symm
  · have hb : (x.length != y.length) = false := by rw [h, bne_self_eq_false]
    rw [hb, if_neg (fun hf => Bool.false_ne_true hf)]
    exact listCmp_digits_eq_compare x y h hx hy
  · rw [if_pos (bne_iff_ne.2 (Nat.ne_of_gt h))]
    rw [Nat.compare_eq_gt.2 h]
    exact (Nat.compare_eq_gt.2 (key y x hy hx hx0 h)).symm

theorem head_dropZero_ne (l : List Char) :
    ∀ c, ((l.dropWhile fun x => x == '0').head? = some c) → c ≠ '0' := by
  intro c hc e
  subst e
  have h := head?_dropWhile (fun x => x == '0') l '0' hc
  simp at h

/-! The claims. -/

/-- Claim C1: the spec says two Version values are equal iff the
comparator answers Equal, in particular Version from the string 0 equals
Version from the string 0 followed by three underscores.  The code derives
PartialEq structurally instead, so the two Versions are not equal even
though Ord.cmp answers Equal on them: the derived equality contradicts the
comparator-based order. -/
theorem claim_C1_version_eq_divergence :
    versionBEq (Version.fromStr "0") (Version.fromStr "0___") = false ∧
    Version.cmp (Version.fromStr "0") (Version.fromStr "0___") = Ordering.eq := by
  exact ⟨by decide, by decide⟩

/-- Claim C2 counterexample: stripping invalid characters is not
transparent to the comparator.  An invalid character interrupts a digit
run, so the string 12_3 compares Less than 123, while their stripped
forms are identical and compare Equal. -/
theorem claim_C2_counterexample :
    strverscmp "12_3" "123" = Ordering.lt ∧
    stripInvalid "12_3" = "123" ∧
    strverscmp (stripInvalid "12_3") (stripInvalid "123") = Ordering.eq := by
  exact ⟨by decide, by decide, by decide⟩

/-- Claim C2 amended: invalid characters are skipped wherever the current
character is inspected, so the three listed comparisons are Equal; but an
invalid character terminates a digit run being captured, so invalid
characters are not transparent in general: 12_3 compares Less than 123. -/
theorem claim_C2_amended :
    strverscmp "0_" "0" = Ordering.eq ∧
    strverscmp "_0_" "0" = Ordering.eq ∧
    strverscmp "123_aa2-67.89" "123aa+2-67.89" = Ordering.eq ∧
    strverscmp "12_3" "123" = Ordering.lt := by
  exact ⟨by decide, by decide, by decide, by decide⟩

/-- Claim C3: the spec says that after equal digit runs the cursors sit
just past the consumed runs, so prepending one zero to both sides of
suffixes that do not start with a digit should not change the result.  In
the code, when the digit run after zero-stripping is empty, the character
after the zeros has already been taken from the iterator and is dropped,
so comparing 0a with 0b answers Equal although a against b answers
Less. -/
theorem claim_C3_zero_run_swallows :
    strverscmp "0a" "0b" = Ordering.eq ∧
    strverscmp "a" "b" = Ordering.lt := by
  exact ⟨by decide, by decide⟩

/-- Claim C4: the spec says the comparator is transitive: two verdicts of
Less-or-Equal chain into Less-or-Equal.  The character dropped after an
all-zero digit run makes the string b compare Equal with 0a, and 0a
compare Equal with a, while b compares Greater than a, so transitivity
fails on the code. -/
theorem claim_C4_transitivity_fails :
    strverscmp "b" "0a" = Ordering.eq ∧
    strverscmp "0a" "a" = Ordering.eq ∧
    strverscmp "b" "a" = Ordering.gt := by
  exact ⟨by decide, by decide, by decide⟩

/-- Claim C5: the comparator is antisymmetric: exchanging the two inputs
turns Greater into Less, keeps Equal, and in general mirrors the
answer. -/
theorem claim_C5_antisymmetry (a b : String) :
    (strverscmp a b = Ordering.gt ↔ strverscmp b a = Ordering.lt) ∧
    (strverscmp a b = Ordering.eq ↔ strverscmp b a = Ordering.eq) ∧
    strverscmp b a = (strverscmp a b).swap := by
  have h := strverscmp_swap a b
  have hsw1 : ∀ o : Ordering, o = Ordering.gt ↔ o.swap = Ordering.lt := by
    intro o
    cases o <;> decide
  have hsw2 : ∀ o : Ordering, o = Ordering.eq ↔ o.swap = Ordering.eq := by
    intro o
    cases o <;> decide
  exact ⟨by rw [h]; exact hsw1 _, by rw [h]; exact hsw2 _, h⟩

/-- Claim C5 witness at a concrete pair of inputs. -/
theorem claim_C5_antisymmetry_witness :
    strverscmp "2" "1" = (strverscmp "1" "2").swap :=
  (claim_C5_antisymmetry "1" "2").2.2

/-- Claim C6: on non-empty all-digit strings the comparator returns
exactly the comparison of the decimal values as unbounded natural
numbers: leading zeros carry no weight, a longer zero-stripped run wins,
and equal-length runs are ordered by character code. -/
theorem claim_C6_digit_strings_numeric (a b : String)
    (ha : a.data ≠ []) (hb : b.data ≠ [])
    (hda : ∀ c ∈ a.data, c.isDigit = true) (hdb : ∀ c ∈ b.data, c.isDigit = true) :
    strverscmp a b = compare (digitsToNat a.data) (digitsToNat b.data) := by
  have h1 : 0 < a.data.length := List.length_pos.2 ha
  have h2 : 0 < b.data.length := List.length_pos.2 hb
  have hlen : a.data.length + b.data.length + 1 =
      (a.data.length + b.data.length - 1) + 2 := by omega
  have h0 : strverscmp a b =
      strverscmpLoop ((a.data.length + b.data.length - 1) + 2) a.data b.data := by
    unfold strverscmp
    rw [show a.length = a.data.length from rfl, show b.length = b.data.length from rfl,
      hlen]
  rw [h0, strverscmpLoop_digits _ _ _ ha hb hda hdb]
  rw [compare_val_lenlex _ _
    (fun x hx => hda x (List.dropWhile_subset _ hx))
    (fun x hx => hdb x (List.dropWhile_subset _ hx))
    (head_dropZero_ne a.data) (head_dropZero_ne b.data)]
  rw [show digitsToNat a.data = valAux 0 a.data from rfl,
    show digitsToNat b.data = valAux 0 b.data from rfl,
    valAux_dropWhile_zero, valAux_dropWhile_zero]

/-- Claim C6 witness: 0001 against 002 compares Less, matching the
comparison of the values one and two. -/
theorem claim_C6_digit_strings_numeric_witness :
    strverscmp "0001" "002" = compare (digitsToNat "0001".data) (digitsToNat "002".data) ∧
    strverscmp "0001" "002" = Ordering.lt :=
  ⟨claim_C6_digit_strings_numeric "0001" "002" (by decide) (by decide)
    (by decide) (by decide), by decide⟩

/-- Claim C7: whenever, after invalid-character skipping, one side of an
outer-loop pass holds the pre-release marker and the other side holds
anything else or nothing at all, the loop immediately answers Less for
the marker side; in particular 123~rc1 compares Less than 123, the empty
string compares Greater than the marker alone, and the marker compares
Equal with itself. -/
theorem claim_C7_tilde_precedence :
    (∀ (fuel : Nat) (l r : List Char),
        l.find? is_valid_version_char = some '~' →
        r.find? is_valid_version_char ≠ some '~' →
        strverscmpLoop (fuel + 1) l r = Ordering.lt) ∧
    (∀ (fuel : Nat) (l r : List Char),
        r.find? is_valid_version_char = some '~' →
        l.find? is_valid_version_char ≠ some '~' →
        strverscmpLoop (fuel + 1) l r = Ordering.gt) ∧
    strverscmp "123~rc1" "123" = Ordering.lt ∧
    strverscmp "" "~" = Ordering.gt ∧
    strverscmp "~" "" = Ordering.lt ∧
    strverscmp "~" "~" = Ordering.eq := by
  refine ⟨?_, ?_, by decide, by decide, by decide, by decide⟩
  · intro fuel l r h1 h2
    rw [find?_eq_head_dropWhile] at h1 h2
    rw [strverscmpLoop_succ]
    exact loopBody_tilde_left _ _ _ _ _ h1 h2
  · intro fuel l r h1 h2
    rw [find?_eq_head_dropWhile] at h1 h2
    rw [strverscmpLoop_succ]
    exact loopBody_tilde_right _ _ _ _ _ h1 h2

/-- Claim C7 witness: a stream holding only the marker against an
exhausted stream answers Less in one pass. -/
theorem claim_C7_tilde_precedence_witness :
    strverscmpLoop 1 ['~'] [] = Ordering.lt :=
  claim_C7_tilde_precedence.1 0 ['~'] [] (by decide) (by decide)

/-- Claim C8: whenever, after invalid-character skipping and the
pre-release-marker step, one side of an outer-loop pass is exhausted and
the other still holds a character, even a separator, the loop answers
Greater for the side holding the character; in particular 123 followed by
a point separator compares Greater than 123. -/
theorem claim_C8_exhaustion_before_separators :
    (∀ (fuel : Nat) (l r : List Char) (c : Char),
        l.find? is_valid_version_char = some c → c ≠ '~' →
        r.find? is_valid_version_char = none →
        strverscmpLoop (fuel + 1) l r = Ordering.gt) ∧
    (∀ (fuel : Nat) (l r : List Char) (c : Char),
        r.find? is_valid_version_char = some c → c ≠ '~' →
        l.find? is_valid_version_char = none →
        strverscmpLoop (fuel + 1) l r = Ordering.lt) ∧
    strverscmp "123." "123" = Ordering.gt := by
  have hnone : ∀ s : List Char,
      s.find? is_valid_version_char = none →
      (s.dropWhile fun c => !is_valid_version_char c).head? = none := by
    intro s h
    rw [find?_eq_head_dropWhile] at h
    exact h
  refine ⟨?_, ?_, by decide⟩
  · intro fuel l r c h1 hc h2
    rw [find?_eq_head_dropWhile] at h1
    rw [strverscmpLoop_succ, hnone r h2]
    exact loopBody_exhausted_right _ _ c _ _ h1 hc
  · intro fuel l r c h1 hc h2
    rw [find?_eq_head_dropWhile] at h1
    rw [strverscmpLoop_succ, hnone l h2]
    exact loopBody_exhausted_left _ _ c _ _ h1 hc

/-- Claim C8 witness: a stream holding only a point separator against an
exhausted stream answers Greater in one pass. -/
theorem claim_C8_exhaustion_before_separators_witness :
    strverscmpLoop 1 ['.'] [] = Ordering.gt :=
  claim_C8_exhaustion_before_separators.1 0 ['.'] [] '.' (by decide) (by decide)
    (by decide)

/-- Claim C9: a Version can be built from any string, given as a borrowed
slice, an owned string or a reference to an owned string, with no
validation or transformation, and both the string view and the display
conversion return the stored string unchanged. -/
theorem claim_C9_construction_verbatim (s : String) :
    (Version.fromStr s).as_str = s ∧
    (Version.fromStr s).to_string = s ∧
    Version.fromOwned s = Version.fromStr s ∧
    Version.fromOwnedRef s = Version.fromStr s ∧
    (Version.fromOwned s).as_str = s ∧
    (Version.fromOwnedRef s).as_str = s ∧
    (Version.fromOwned s).to_string = s ∧
    (Version.fromOwnedRef s).to_string = s :=
  ⟨rfl, rfl, rfl, rfl, rfl, rfl, rfl, rfl⟩

/-- Claim C10: comparing the empty string with any string s is decided by
the first valid character of s alone: Greater when that character is the
pre-release marker, Equal when s has no valid character, Less
otherwise. -/
theorem claim_C10_empty_left (s : String) :
    strverscmp "" s =
      match s.data.find? is_valid_version_char with
      | some c => if c = '~' then Ordering.gt else Ordering.lt
      | none => Ordering.eq := by
  have h0 : strverscmp "" s = strverscmpLoop (s.length + 1) [] s.data := by
    unfold strverscmp
    rw [show "".length = 0 from rfl, Nat.zero_add]
  rw [h0, strverscmpLoop_succ]
  rw [show (List.dropWhile (fun c => !is_valid_version_char c) ([] : List Char)) = []
    from rfl]
  rw [show ([] : List Char).head? = none from rfl]
  rw [find?_eq_head_dropWhile]
  cases hh : (s.data.dropWhile fun c => !is_valid_version_char c).head? with
  | none => exact loopBody_both_empty _ _ _
  | some c =>
    by_cases hc : c = '~'
    · subst hc
      rw [loopBody_tilde_right _ _ _ _ _ rfl (fun h => Option.noConfusion h)]
      rfl
    · rw [loopBody_exhausted_left _ _ c _ _ rfl hc]
      dsimp only
      rw [if_neg hc]
